import Mathlib

/-!
Verification of the boltnd onion-messaging core.

The development shallowly embeds the Go sources of the `onionmsg` and
`rpcserver` packages.  Public keys are abstracted to tagged naturals
(`PubKey`), byte strings to `List Nat`, and Go's three-way outcome of a
function call (normal return, error return, runtime panic) to `GoResult`.
Functions whose implementation file is absent from the repository snapshot
(the onion messenger itself) are modelled from the specification; each such
definition carries a doc comment starting with `Modelled from the spec:`.
-/

namespace Boltnd

/-- A secp256k1 public key, abstracted to a tag.  Equality corresponds to
equality of the serialized compressed form. -/
structure PubKey where
  id : Nat
deriving DecidableEq, Repr

/-- Byte strings are modelled as lists of naturals. -/
abbrev Bytes := List Nat

/-- Outcome of a Go function that can return a value, return an error, or
panic at runtime (e.g. an out-of-bounds slice index). -/
inductive GoResult (ε α : Type) where
  | ok : α → GoResult ε α
  | err : ε → GoResult ε α
  | fatal : String → GoResult ε α
deriving DecidableEq, Repr

/-- `sphinx.BlindedPathHop`: a cleartext node id together with the payload
that will be encrypted for it.  Go's zero value for the payload slice is
modelled as the empty list. -/
structure BlindedPathHop where
  nodePub : PubKey
  payload : Bytes := []
deriving DecidableEq, Repr

/-- The error returned by `createPathToBlind` when an intermediate payload
encode fails: it records the loop index and wraps the underlying cause. -/
structure PathEncodeError (ε : Type) where
  hop : Nat
  cause : ε
deriving DecidableEq, Repr

/-- The loop of `createPathToBlind` (source part_000, lines 48-62), written
as recursion over the tail of the path.  `cur` is `path[i-1]`, `rest` is
`path[i:]`.  Each step encodes the next node id into the current hop's
payload (returning a wrapped error on failure) and then emits the next hop. -/
def createPathToBlindLoop {ε : Type} (encodePayload : PubKey → Except ε Bytes) :
    Nat → PubKey → List PubKey → GoResult (PathEncodeError ε) (List BlindedPathHop)
  | _, cur, [] => .ok [{ nodePub := cur }]
  | i, cur, next :: rest =>
    match encodePayload next with
    | .error e => .err ⟨i, e⟩
    | .ok pl =>
      match createPathToBlindLoop encodePayload (i + 1) next rest with
      | .ok hops => .ok ({ nodePub := cur, payload := pl } :: hops)
      | .err e => .err e
      | .fatal s => .fatal s

/-- `createPathToBlind` (source part_000, lines 32-65): builds the blinded
path hops for a cleartext path.  The source writes `hopsToBlind[0]`
unconditionally, which panics on an empty path. -/
def createPathToBlind {ε : Type} (path : List PubKey)
    (encodePayload : PubKey → Except ε Bytes) :
    GoResult (PathEncodeError ε) (List BlindedPathHop) :=
  match path with
  | [] => .fatal "index out of range"
  | p0 :: rest => createPathToBlindLoop encodePayload 1 p0 rest

/-- `sphinx.PayloadTLV` / legacy payload type tag. -/
inductive PayloadType where
  | tlv
  | legacy
deriving DecidableEq, Repr

/-- `sphinx.OnionHop`: one entry of a sphinx payment path. -/
structure OnionHop where
  nodePub : PubKey
  payloadType : PayloadType
  payload : Bytes
deriving DecidableEq, Repr

/-- Zero value of `sphinx.OnionHop`, used to fill the unwritten tail of the
fixed-width payment path array. -/
def emptyOnionHop : OnionHop :=
  { nodePub := ⟨0⟩, payloadType := .legacy, payload := [] }

/-- `sphinx.NumMaxHops`: the fixed width of the `sphinx.PaymentPath` array. -/
def numMaxHops : Nat := 27

/-- `sphinx.BlindedPath`: output of the sphinx blinding routine. -/
structure BlindedPath where
  introductionPoint : PubKey
  blindingPoint : PubKey
  blindedHops : List PubKey
  encryptedData : List Bytes
deriving DecidableEq, Repr

/-- The loop of `blindedToSphinx` (source part_000, lines 87-95): writes
hop `i` of the fixed-width array from `blindedHops[i]` and
`encryptedData[i]` while `i < len(encryptedData)`.  Reading
`blindedHops[i]` or writing `sphinxPath[i]` out of bounds panics.  The
first argument is structural fuel; the caller passes at least as many
iterations as the loop can make, so it never runs out. -/
def blindedToSphinxLoop (blindedRoute : BlindedPath) :
    Nat → Nat → List OnionHop → GoResult String (List OnionHop)
  | 0, _, acc => .ok acc
  | fuel + 1, i, acc =>
    if h : i < blindedRoute.encryptedData.length then
      if hb : i < blindedRoute.blindedHops.length then
        if i < numMaxHops then
          blindedToSphinxLoop blindedRoute fuel (i + 1)
            (acc.set i
              { nodePub := blindedRoute.blindedHops.get ⟨i, hb⟩
                payloadType := .tlv
                payload := blindedRoute.encryptedData.get ⟨i, h⟩ })
        else .fatal "index out of range"
      else .fatal "index out of range"
    else .ok acc

/-- `blindedToSphinx` (source part_000, lines 69-98): converts a blinded
path to the fixed-width sphinx payment path.  Hop 0 uses the cleartext
introduction point and `encryptedData[0]` (which panics when the encrypted
data list is empty); hops `i ≥ 1` use the blinded node ids.  The only
error the source can return is nil, so no `.err` value is ever built. -/
def blindedToSphinx (blindedRoute : BlindedPath) :
    GoResult String (List OnionHop) :=
  if blindedRoute.encryptedData.length = 0 then .fatal "index out of range"
  else
    blindedToSphinxLoop blindedRoute blindedRoute.encryptedData.length 1
      ((List.replicate numMaxHops emptyOnionHop).set 0
        { nodePub := blindedRoute.introductionPoint
          payloadType := .tlv
          payload := blindedRoute.encryptedData.getD 0 [] })

/-- `lnwire.BlindedHop` (wire form): a blinded node id with its encrypted
data blob. -/
structure BlindedHopWire where
  blindedNodeId : PubKey
  encryptedData : Bytes
deriving DecidableEq, Repr

/-- `lnwire.ReplyPath`: a blinded route attached to a message so that the
recipient can respond. -/
structure ReplyPath where
  firstNodeId : PubKey
  blindingPoint : PubKey
  hops : List BlindedHopWire
deriving DecidableEq, Repr

/-- `lnwire.FinalHopPayload`: a tlv record destined for the final hop. -/
structure FinalHopPayload where
  tlvType : Nat
  value : Bytes
deriving DecidableEq, Repr

/-- `lnwire.OnionMessagePayload`: the decrypted inner TLV stream of one
onion layer. -/
structure OnionMessagePayload where
  replyPath : Option ReplyPath
  encryptedData : Bytes
  finalHopPayloads : List FinalHopPayload
deriving DecidableEq, Repr

/-- `lnwire.BlindedRouteData`: the decrypted routing blob; `next_node_id`
is absent only at the terminal hop. -/
structure BlindedRouteData where
  nextNodeId : Option PubKey
deriving DecidableEq, Repr

/-- Modelled from the spec: the start of the reserved final-payload tlv
range (`lnwire` is absent from the snapshot; spec section 6 reserves types
at or above 64 for `final_hop_payload`). -/
def finalPayloadStart : Nat := 64

/-- Modelled from the spec: `lnwire.ValidateFinalPayload` (absent from the
snapshot) checks that a tlv type lies in the final-payload range; it is
used both at registration time and at request validation. -/
def validateFinalPayload (tlvType : Nat) : Bool :=
  decide (finalPayloadStart ≤ tlvType)

/-- `sphinx.OnionPacket`, abstracted to a tag. -/
structure OnionPacket where
  id : Nat
deriving DecidableEq, Repr

/-- `sphinx.ProcessedPacket` action codes. -/
inductive SphinxAction where
  | exitNode
  | moreHops
  | failure
deriving DecidableEq, Repr

/-- `sphinx.ProcessedPacket`: the result of processing one onion layer;
`payloadBytes` is the per-hop payload handed to the payload decoder. -/
structure ProcessedPacket where
  action : SphinxAction
  nextPacket : Option OnionPacket
  payloadBytes : Bytes
deriving DecidableEq, Repr

/-- Inbound-dispatch error kinds; external component failures (mocks,
decoders, handlers, forwarding) carry a numeric code. -/
inductive HandleErr where
  | errBadOnionBlob
  | errNoForwardingOnion
  | errFinalPayload
  | errBadMessage
  | externalErr (code : Nat)
deriving DecidableEq, Repr

/-- `OnionMessageHandler`: handler for a final hop payload, invoked with
(reply_path, encrypted_data, value); returns an error code or none. -/
def OnionMessageHandler : Type := Option ReplyPath → Bytes → Bytes → Option Nat

/-- `onionMessageKit`: the capabilities handed to `handleOnionMessage`
(onion processor, payload decoder, blob decryptor, forwarder, registered
handlers). -/
structure OnionMessageKit where
  processOnion : Bytes → Except Nat (PubKey × ProcessedPacket)
  decodePayload : Bytes → Except Nat OnionMessagePayload
  decryptDataBlob : PubKey → OnionMessagePayload → Except Nat BlindedRouteData
  forwardMessage : BlindedRouteData → PubKey → OnionPacket → Option Nat
  handlers : Nat → Option OnionMessageHandler

/-- Modelled from the spec: the exit-node dispatch of `handleOnionMessage`
(the messenger implementation file is absent from the snapshot).  For each
final hop payload, look up the registered handler for its tlv type; if
present, invoke it with (reply_path, encrypted_data, value); absence is
silently tolerated; a handler error is returned. -/
def dispatchFinalPayloadList (handlers : Nat → Option OnionMessageHandler)
    (replyPath : Option ReplyPath) (encryptedData : Bytes) :
    List FinalHopPayload → Option HandleErr
  | [] => none
  | fhp :: rest =>
    match handlers fhp.tlvType with
    | none => dispatchFinalPayloadList handlers replyPath encryptedData rest
    | some h =>
      match h replyPath encryptedData fhp.value with
      | some code => some (.externalErr code)
      | none => dispatchFinalPayloadList handlers replyPath encryptedData rest

/-- Modelled from the spec: `handleOnionMessage` (the messenger
implementation file is absent from the snapshot; behaviour from spec
section 4.6 together with the repository's TestHandleOnionMessage, which
fixes that in the MoreHops branch the final-payload check precedes the
next-packet check).  Process the onion, decode the inner payload, then
dispatch on the action: ExitNode dispatches final hop payloads to
registered handlers; MoreHops rejects stray final payloads
(ErrFinalPayload), requires a next packet (ErrNoForwardingOnion), decrypts
the routing blob and forwards; any other action is ErrBadMessage. -/
def handleOnionMessage (onionBlob : Bytes) (kit : OnionMessageKit) :
    Option HandleErr :=
  match kit.processOnion onionBlob with
  | .error _ => some .errBadOnionBlob
  | .ok (blinding, packet) =>
    match kit.decodePayload packet.payloadBytes with
    | .error code => some (.externalErr code)
    | .ok payload =>
      match packet.action with
      | .exitNode =>
        dispatchFinalPayloadList kit.handlers payload.replyPath
          payload.encryptedData payload.finalHopPayloads
      | .moreHops =>
        if payload.finalHopPayloads = [] then
          match packet.nextPacket with
          | none => some .errNoForwardingOnion
          | some next =>
            match kit.decryptDataBlob blinding payload with
            | .error code => some (.externalErr code)
            | .ok data =>
              match kit.forwardMessage data blinding next with
              | some code => some (.externalErr code)
              | none => none
        else some .errFinalPayload
      | .failure => some .errBadMessage

/-- Messenger lifecycle states (spec section 4.5): Created, Started,
Stopped; transitions are one-way. -/
inductive MessengerState where
  | created
  | started
  | stopped
deriving DecidableEq, Repr

/-- Modelled from the spec: the onion messenger's mutable core — its
lifecycle state and handler registry (an association list from tlv type to
handler, keys unique).  The handler payload type is abstract. -/
structure Messenger (H : Type) where
  state : MessengerState
  handlers : List (Nat × H)
deriving DecidableEq, Repr

/-- Lifecycle and registry error kinds. -/
inductive RegistryErr where
  | errNotStarted
  | errShuttingDown
  | errNotFinalPayload
  | errHandlerRegistered
  | errHandlerNotFound
deriving DecidableEq, Repr

/-- Modelled from the spec: `NewOnionMessenger` creates a messenger in the
Created state with an empty registry. -/
def NewOnionMessenger (H : Type) : Messenger H :=
  { state := .created, handlers := [] }

/-- Modelled from the spec: `Start` moves Created to Started; it fails in
any other state. -/
def Messenger.Start {H : Type} (m : Messenger H) : Option (Messenger H) :=
  match m.state with
  | .created => some { m with state := .started }
  | _ => none

/-- Modelled from the spec: `Stop` moves Started to Stopped; it fails in
any other state. -/
def Messenger.Stop {H : Type} (m : Messenger H) : Option (Messenger H) :=
  match m.state with
  | .started => some { m with state := .stopped }
  | _ => none

/-- Modelled from the spec: `RegisterHandler` (the messenger implementation
file is absent from the snapshot).  Fails with ErrNotStarted before start
and ErrShuttingDown after stop; while started it validates the tlv type is
in the final-payload range, rejects an already-bound type with
ErrHandlerRegistered, and otherwise inserts the handler. -/
def Messenger.RegisterHandler {H : Type} (m : Messenger H) (tlvType : Nat)
    (h : H) : Except RegistryErr (Messenger H) :=
  match m.state with
  | .created => .error .errNotStarted
  | .stopped => .error .errShuttingDown
  | .started =>
    if validateFinalPayload tlvType then
      match m.handlers.lookup tlvType with
      | some _ => .error .errHandlerRegistered
      | none => .ok { m with handlers := (tlvType, h) :: m.handlers }
    else .error .errNotFinalPayload

/-- Modelled from the spec: `DeregisterHandler` (the messenger
implementation file is absent from the snapshot).  Same state gating as
register; removes the entry, failing with ErrHandlerNotFound when it is
absent. -/
def Messenger.DeregisterHandler {H : Type} (m : Messenger H)
    (tlvType : Nat) : Except RegistryErr (Messenger H) :=
  match m.state with
  | .created => .error .errNotStarted
  | .stopped => .error .errShuttingDown
  | .started =>
    match m.handlers.lookup tlvType with
    | none => .error .errHandlerNotFound
    | some _ =>
      .ok { m with handlers := m.handlers.eraseP (fun p => p.1 == tlvType) }

/-- `SendMessageRequest` (spec section 3): an outbound send request. -/
structure SendMessageRequest where
  peer : Option PubKey
  blindedDestination : Option ReplyPath
  replyPath : Option ReplyPath
  finalPayloads : List FinalHopPayload
  directConnect : Bool
deriving DecidableEq, Repr

/-- Request-validation error kinds. -/
inductive ValidateErr where
  | errNoDest
  | errBothDest
  | errNoBlindedHops
  | errNotFinalPayload
deriving DecidableEq, Repr

/-- Modelled from the spec: the final-payload range check applied to each
entry of a request's `final_payloads` during validation. -/
def checkFinalPayloadTypes : List FinalHopPayload → Option ValidateErr
  | [] => none
  | fhp :: rest =>
    if validateFinalPayload fhp.tlvType then checkFinalPayloadTypes rest
    else some .errNotFinalPayload

/-- Modelled from the spec: `SendMessageRequest.Validate` (the
implementation file is absent from the snapshot; behaviour from spec
section 4.7 and TestValidateSendMessageRequest).  Exactly one of
{peer, blinded destination} must be set (ErrNoDest / ErrBothDest); a
present blinded destination needs at least one hop (ErrNoBlindedHops);
every final payload tlv type must be in the final-payload range. -/
def SendMessageRequest.Validate (r : SendMessageRequest) :
    Option ValidateErr :=
  match r.peer, r.blindedDestination with
  | none, none => some .errNoDest
  | some _, some _ => some .errBothDest
  | some _, none => checkFinalPayloadTypes r.finalPayloads
  | none, some dest =>
    if dest.hops = [] then some .errNoBlindedHops
    else checkFinalPayloadTypes r.finalPayloads

/-- The custom-message type tag carrying onion messages. -/
def onionMessageType : Nat := 513

/-- `lndclient.CustomMessage`: a custom message from the subscription. -/
structure CustomMessage where
  msgType : Nat
  data : Bytes
deriving DecidableEq, Repr

/-- One occurrence on the receive loop's select: a message arrives, an
error arrives, one of the streams closes, or the local quit signal fires. -/
inductive LoopEvent where
  | msgArrived (m : CustomMessage)
  | errArrived (code : Nat)
  | msgStreamClosed
  | errStreamClosed
  | quitSignal
deriving DecidableEq, Repr

/-- The argument passed to the `request_shutdown` capability. -/
inductive ShutdownReason where
  | subscriptionErr (code : Nat)
  | errLNDShutdown
deriving DecidableEq, Repr

/-- How the receive loop left its main loop (or that it is still in it). -/
inductive LoopExit where
  | exitClean
  | exitAfterShutdownRequest
  | stillRunning
deriving DecidableEq, Repr

/-- Modelled from the spec: the messenger's receive loop (the
implementation file is absent from the snapshot; behaviour from spec
section 4.6 and TestReceiveOnionMessages).  Returns the logged handling
results of inbound onion messages, the calls made to `request_shutdown`,
and how the loop exited.  Non-onion messages are ignored; a message's
handling error never stops the loop; a subscription error requests
shutdown with that error and exits; a closed stream requests shutdown with
ErrLNDShutdown and exits; the quit signal exits cleanly. -/
def receiveOnionMessages (kit : OnionMessageKit) :
    List LoopEvent → List (Option HandleErr) × List ShutdownReason × LoopExit
  | [] => ([], [], .stillRunning)
  | ev :: rest =>
    match ev with
    | .msgArrived m =>
      if m.msgType = onionMessageType then
        let res := receiveOnionMessages kit rest
        (handleOnionMessage m.data kit :: res.1, res.2)
      else receiveOnionMessages kit rest
    | .errArrived code =>
      ([], [.subscriptionErr code], .exitAfterShutdownRequest)
    | .msgStreamClosed => ([], [.errLNDShutdown], .exitAfterShutdownRequest)
    | .errStreamClosed => ([], [.errLNDShutdown], .exitAfterShutdownRequest)
    | .quitSignal => ([], [], .exitClean)

/-- `onionPayloadResponse` (source part_001): a payload delivered to a
subscription client together with its reply path. -/
structure OnionPayloadResponse where
  payload : Bytes
  replyPath : Option ReplyPath
deriving DecidableEq, Repr

/-- One occurrence on the subscription loop's select: an incoming payload,
client context cancellation, or server quit. -/
inductive SubsEvent where
  | incomingMsg (r : OnionPayloadResponse)
  | ctxDone
  | quitSignal
deriving DecidableEq, Repr

/-- How `handleSubscribeOnionPayload` returned. -/
inductive SubsExit where
  | registerFailed (e : RegistryErr)
  | clientCancel
  | serverShutdown
  | sendFailed (code : Nat)
deriving DecidableEq, Repr

/-- The consume loop of `handleSubscribeOnionPayload` (source part_001,
lines 1373-1397), with the select choices serialised as an event list:
incoming payloads are sent on the stream (a send failure returns it),
client cancellation and server quit return their errors.  `none` means
the loop is still blocked waiting (the call has not returned). -/
def subscribeLoop (send : OnionPayloadResponse → Option Nat) :
    List SubsEvent → Option SubsExit
  | [] => none
  | ev :: rest =>
    match ev with
    | .incomingMsg r =>
      match send r with
      | some code => some (.sendFailed code)
      | none => subscribeLoop send rest
    | .ctxDone => some .clientCancel
    | .quitSignal => some .serverShutdown

/-- `handleSubscribeOnionPayload` (source part_001, lines 1326-1397):
registers a handler for the tlv type (returning the registration error on
failure), consumes incoming payloads until cancellation, quit or a send
failure, and — by the deferred call — deregisters the handler before
returning (a deregistration failure is only logged).  The messenger state
threads single-threadedly through the call; `none` means the call has not
returned. -/
def handleSubscribeOnionPayload {H : Type} (m : Messenger H) (tlvType : Nat)
    (h : H) (send : OnionPayloadResponse → Option Nat)
    (events : List SubsEvent) : Option (Messenger H × SubsExit) :=
  match m.RegisterHandler tlvType h with
  | .error e => some (m, .registerFailed e)
  | .ok m1 =>
    match subscribeLoop send events with
    | none => none
    | some exitRes =>
      match m1.DeregisterHandler tlvType with
      | .ok m2 => some (m2, exitRes)
      | .error _ => some (m1, exitRes)

/-! ## Helper lemmas about the blinded route builder -/

/-- Default hop record used as the `getD` fallback in statements. -/
def defaultHop : BlindedPathHop := { nodePub := ⟨0⟩ }

theorem createPathToBlindLoop_ok {ε : Type} (enc : PubKey → Except ε Bytes) :
    ∀ (rest : List PubKey) (i : Nat) (cur : PubKey)
      (hops : List BlindedPathHop),
      createPathToBlindLoop enc i cur rest = .ok hops →
      hops.length = rest.length + 1 ∧
      (∀ j, j ≤ rest.length →
        (hops.getD j defaultHop).nodePub = (cur :: rest).getD j ⟨0⟩) ∧
      (∀ j, j < rest.length →
        Except.ok (hops.getD j defaultHop).payload = enc (rest.getD j ⟨0⟩)) ∧
      (hops.getD rest.length defaultHop).payload = [] := by
  intro rest
  induction rest with
  | nil =>
    intro i cur hops h
    simp only [createPathToBlindLoop, GoResult.ok.injEq] at h
    subst h
    refine ⟨rfl, ?_, ?_, rfl⟩
    · intro j hj
      have hj0 : j = 0 := by simpa using hj
      subst hj0
      rfl
    · intro j hj
      simp at hj
  | cons next rest2 ih =>
    intro i cur hops h
    simp only [createPathToBlindLoop] at h
    cases henc : enc next with
    | error e => rw [henc] at h; exact absurd h (by simp)
    | ok pl =>
      rw [henc] at h
      cases hrec : createPathToBlindLoop enc (i + 1) next rest2 with
      | err e => rw [hrec] at h; exact absurd h (by simp)
      | fatal s => rw [hrec] at h; exact absurd h (by simp)
      | ok hops2 =>
        rw [hrec] at h
        simp only [GoResult.ok.injEq] at h
        subst h
        obtain ⟨hlen, hnode, hpl, hlast⟩ := ih (i + 1) next hops2 hrec
        refine ⟨by simp [hlen], ?_, ?_, ?_⟩
        · intro j hj
          cases j with
          | zero => rfl
          | succ j2 =>
            simp only [List.getD_cons_succ]
            exact hnode j2 (by simpa using hj)
        · intro j hj
          cases j with
          | zero => simpa using henc.symm
          | succ j2 =>
            simp only [List.getD_cons_succ]
            exact hpl j2 (by simpa using hj)
        · simpa using hlast

theorem createPathToBlindLoop_err {ε : Type} (enc : PubKey → Except ε Bytes) :
    ∀ (rest : List PubKey) (i : Nat) (cur : PubKey) (e : PathEncodeError ε),
      createPathToBlindLoop enc i cur rest = .err e →
      ∃ j, j < rest.length ∧ e.hop = i + j ∧
        enc (rest.getD j ⟨0⟩) = .error e.cause := by
  intro rest
  induction rest with
  | nil => intro i cur e h; exact absurd h (by simp [createPathToBlindLoop])
  | cons next rest2 ih =>
    intro i cur e h
    simp only [createPathToBlindLoop] at h
    cases henc : enc next with
    | error ec =>
      rw [henc] at h
      simp only [GoResult.err.injEq] at h
      refine ⟨0, by simp, ?_, ?_⟩
      · rw [← h]; simp
      · rw [← h]; simpa using henc
    | ok pl =>
      rw [henc] at h
      cases hrec : createPathToBlindLoop enc (i + 1) next rest2 with
      | ok hops2 => rw [hrec] at h; exact absurd h (by simp)
      | fatal s => rw [hrec] at h; exact absurd h (by simp)
      | err e2 =>
        rw [hrec] at h
        simp only [GoResult.err.injEq] at h
        obtain ⟨j, hj, hhop, hcause⟩ := ih (i + 1) next e2 hrec
        rw [← h]
        exact ⟨j + 1, by simpa using hj, by omega, by simpa using hcause⟩

theorem createPathToBlindLoop_ne_fatal {ε : Type}
    (enc : PubKey → Except ε Bytes) :
    ∀ (rest : List PubKey) (i : Nat) (cur : PubKey) (s : String),
      createPathToBlindLoop enc i cur rest ≠ .fatal s := by
  intro rest
  induction rest with
  | nil => intro i cur s h; exact absurd h (by simp [createPathToBlindLoop])
  | cons next rest2 ih =>
    intro i cur s h
    simp only [createPathToBlindLoop] at h
    cases henc : enc next with
    | error ec => rw [henc] at h; exact absurd h (by simp)
    | ok pl =>
      rw [henc] at h
      cases hrec : createPathToBlindLoop enc (i + 1) next rest2 with
      | ok hops2 => rw [hrec] at h; exact absurd h (by simp)
      | err e2 => rw [hrec] at h; exact absurd h (by simp)
      | fatal s2 =>
        rw [hrec] at h
        simp only [GoResult.fatal.injEq] at h
        exact ih (i + 1) next s2 hrec

/-- C1: for every non-empty cleartext path of length k and every payload
encoder, createPathToBlind returns exactly k hop records where record i
has node_pub equal to the i-th path node, record i < k-1 has payload equal
to the encoding of the next node's key, and the final record has empty
payload; if any intermediate encode fails, the whole call fails with an
error wrapping the underlying cause. -/
theorem createPathToBlind_correct {ε : Type} (path : List PubKey)
    (enc : PubKey → Except ε Bytes) (hne : path ≠ []) :
    (∀ hops, createPathToBlind path enc = .ok hops →
      hops.length = path.length ∧
      (∀ i, i < path.length →
        (hops.getD i defaultHop).nodePub = path.getD i ⟨0⟩) ∧
      (∀ i, i + 1 < path.length →
        Except.ok (hops.getD i defaultHop).payload =
          enc (path.getD (i + 1) ⟨0⟩)) ∧
      (hops.getD (path.length - 1) defaultHop).payload = []) ∧
    (∀ e, createPathToBlind path enc = .err e →
      ∃ i, i + 1 < path.length ∧
        enc (path.getD (i + 1) ⟨0⟩) = .error e.cause) ∧
    ((∃ hops, createPathToBlind path enc = .ok hops) ∨
      (∃ e, createPathToBlind path enc = .err e)) := by
  cases path with
  | nil => exact absurd rfl hne
  | cons p0 rest =>
    refine ⟨?_, ?_, ?_⟩
    · intro hops h
      obtain ⟨hlen, hnode, hpl, hlast⟩ :=
        createPathToBlindLoop_ok enc rest 1 p0 hops h
      refine ⟨by simpa using hlen, ?_, ?_, ?_⟩
      · intro i hi
        have hi2 : i ≤ rest.length := by simp at hi; omega
        exact hnode i hi2
      · intro i hi
        have hi2 : i < rest.length := by simp at hi; omega
        simpa using hpl i hi2
      · simpa using hlast
    · intro e h
      obtain ⟨j, hj, _, hcause⟩ := createPathToBlindLoop_err enc rest 1 p0 e h
      exact ⟨j, by simpa using hj, by simpa using hcause⟩
    · cases hres : createPathToBlind (p0 :: rest) enc with
      | ok hops => exact Or.inl ⟨hops, rfl⟩
      | err e => exact Or.inr ⟨e, rfl⟩
      | fatal s => exact absurd hres (createPathToBlindLoop_ne_fatal enc rest 1 p0 s)

/-- A concrete encoder for witnesses: encodes a public key as its tag. -/
def encNat : PubKey → Except Nat Bytes := fun p => .ok [p.id]

/-- A concrete three-node cleartext path for witnesses. -/
def threePath : List PubKey := [⟨1⟩, ⟨2⟩, ⟨3⟩]

/-- The hop records createPathToBlind builds for `threePath` with
`encNat`. -/
def threeHops : List BlindedPathHop := [⟨⟨1⟩, [2]⟩, ⟨⟨2⟩, [3]⟩, ⟨⟨3⟩, []⟩]

theorem createPathToBlind_correct_witness :
    threeHops.length = threePath.length ∧
    (threeHops.getD (threePath.length - 1) defaultHop).payload = [] :=
  have h := createPathToBlind_correct threePath encNat (by decide)
  have hok := h.1 threeHops (by decide)
  ⟨hok.1, hok.2.2.2⟩

/-- C8: createPathToBlind writes its first hop record by unconditional
index access: on the empty path it panics (index out of range) rather than
returning an error, and on every non-empty path it is total, returning
either k hop records or an encoding error. -/
theorem createPathToBlind_totality {ε : Type} (path : List PubKey)
    (enc : PubKey → Except ε Bytes) :
    (path = [] → createPathToBlind path enc = .fatal "index out of range") ∧
    (path ≠ [] →
      (∀ s, createPathToBlind path enc ≠ .fatal s) ∧
      ((∃ hops, createPathToBlind path enc = .ok hops ∧
          hops.length = path.length) ∨
        (∃ e, createPathToBlind path enc = .err e))) := by
  constructor
  · intro h; subst h; rfl
  · intro hne
    cases path with
    | nil => exact absurd rfl hne
    | cons p0 rest =>
      refine ⟨fun s => createPathToBlindLoop_ne_fatal enc rest 1 p0 s, ?_⟩
      cases hres : createPathToBlind (p0 :: rest) enc with
      | ok hops =>
        obtain ⟨hlen, _, _, _⟩ :=
          createPathToBlindLoop_ok enc rest 1 p0 hops hres
        exact Or.inl ⟨hops, rfl, by simpa using hlen⟩
      | err e => exact Or.inr ⟨e, rfl⟩
      | fatal s =>
        exact absurd hres (createPathToBlindLoop_ne_fatal enc rest 1 p0 s)

theorem createPathToBlind_totality_witness :
    createPathToBlind ([] : List PubKey) encNat = .fatal "index out of range" ∧
    createPathToBlind threePath encNat ≠ .fatal "index out of range" :=
  ⟨(createPathToBlind_totality [] encNat).1 rfl,
    ((createPathToBlind_totality threePath encNat).2 (by decide)).1
      "index out of range"⟩

/-! ## Helper lemmas about the sphinx adapter -/

theorem getD_set_ne {α : Type} (l : List α) (i j : Nat) (v d : α)
    (h : i ≠ j) : (l.set i v).getD j d = l.getD j d := by
  simp [List.getD_eq_getElem?_getD, List.getElem?_set_ne h]

theorem getD_set_self {α : Type} (l : List α) (i : Nat) (v d : α)
    (h : i < l.length) : (l.set i v).getD i d = v := by
  simp [List.getD_eq_getElem?_getD, List.getElem?_set_self h]

theorem blindedToSphinxLoop_ne_err (r : BlindedPath) :
    ∀ (fuel i : Nat) (acc : List OnionHop) (e : String),
      blindedToSphinxLoop r fuel i acc ≠ .err e := by
  intro fuel
  induction fuel with
  | zero =>
    intro i acc e h
    exact absurd h (by simp [blindedToSphinxLoop])
  | succ fuel ihn =>
    intro i acc e h
    rw [blindedToSphinxLoop] at h
    by_cases h1 : i < r.encryptedData.length
    · rw [dif_pos h1] at h
      by_cases h2 : i < r.blindedHops.length
      · rw [dif_pos h2] at h
        by_cases h3 : i < numMaxHops
        · rw [if_pos h3] at h
          exact ihn (i + 1) _ e h
        · rw [if_neg h3] at h; exact absurd h (by simp)
      · rw [dif_neg h2] at h; exact absurd h (by simp)
    · rw [dif_neg h1] at h; exact absurd h (by simp)

theorem blindedToSphinxLoop_ok_iff (r : BlindedPath) :
    ∀ (fuel i : Nat) (acc : List OnionHop),
      r.encryptedData.length - i ≤ fuel →
      ((∃ res, blindedToSphinxLoop r fuel i acc = .ok res) ↔
        (∀ j, i ≤ j → j < r.encryptedData.length →
          j < r.blindedHops.length ∧ j < numMaxHops)) := by
  intro fuel
  induction fuel with
  | zero =>
    intro i acc hn
    constructor
    · intro _ j hij hjlen
      exact absurd hjlen (by omega)
    · intro _
      exact ⟨acc, rfl⟩
  | succ fuel ihn =>
    intro i acc hn
    by_cases h1 : i < r.encryptedData.length
    · rw [blindedToSphinxLoop, dif_pos h1]
      by_cases h2 : i < r.blindedHops.length
      · rw [dif_pos h2]
        by_cases h3 : i < numMaxHops
        · rw [if_pos h3, ihn (i + 1) _ (by omega)]
          constructor
          · intro hall j hij hjlen
            rcases Nat.eq_or_lt_of_le hij with heq | hlt
            · subst heq; exact ⟨h2, h3⟩
            · exact hall j hlt hjlen
          · intro hall j hij hjlen
            exact hall j (by omega) hjlen
        · rw [if_neg h3]
          constructor
          · rintro ⟨res, hres⟩; exact absurd hres (by simp)
          · intro hall; exact absurd (hall i le_rfl h1).2 h3
      · rw [dif_neg h2]
        constructor
        · rintro ⟨res, hres⟩; exact absurd hres (by simp)
        · intro hall; exact absurd (hall i le_rfl h1).1 h2
    · rw [blindedToSphinxLoop, dif_neg h1]
      constructor
      · intro _ j hij hjlen
        exact absurd hjlen (by omega)
      · intro _
        exact ⟨acc, rfl⟩

theorem blindedToSphinxLoop_ok_contents (r : BlindedPath) :
    ∀ (fuel i : Nat) (acc res : List OnionHop),
      r.encryptedData.length - i ≤ fuel →
      acc.length = numMaxHops →
      blindedToSphinxLoop r fuel i acc = .ok res →
      res.length = numMaxHops ∧
      (∀ j, j < i → res.getD j emptyOnionHop = acc.getD j emptyOnionHop) ∧
      (∀ j, i ≤ j → j < r.encryptedData.length →
        res.getD j emptyOnionHop =
          { nodePub := r.blindedHops.getD j ⟨0⟩, payloadType := .tlv,
            payload := r.encryptedData.getD j [] }) := by
  intro fuel
  induction fuel with
  | zero =>
    intro i acc res hn hacc h
    simp only [blindedToSphinxLoop, GoResult.ok.injEq] at h
    subst h
    refine ⟨hacc, fun j _ => rfl, ?_⟩
    intro j hij hjlen
    omega
  | succ fuel ihn =>
    intro i acc res hn hacc h
    rw [blindedToSphinxLoop] at h
    by_cases h1 : i < r.encryptedData.length
    · rw [dif_pos h1] at h
      by_cases h2 : i < r.blindedHops.length
      · rw [dif_pos h2] at h
        by_cases h3 : i < numMaxHops
        · rw [if_pos h3] at h
          have haccset : (acc.set i
              { nodePub := r.blindedHops.get ⟨i, h2⟩, payloadType := .tlv,
                payload := r.encryptedData.get ⟨i, h1⟩ }).length =
              numMaxHops := by
            simpa using hacc
          obtain ⟨hlen, hsame, hset⟩ :=
            ihn (i + 1) _ res (by omega) haccset h
          have hmem : i < acc.length := by omega
          refine ⟨hlen, ?_, ?_⟩
          · intro j hj
            rw [hsame j (by omega), getD_set_ne _ _ _ _ _ (by omega)]
          · intro j hij hjlen
            rcases Nat.eq_or_lt_of_le hij with heq | hlt
            · rw [← heq]
              rw [hsame i (by omega), getD_set_self _ _ _ _ hmem]
              simp [List.getD_eq_getElem, h1, h2]
            · exact hset j hlt hjlen
        · rw [if_neg h3] at h; exact absurd h (by simp)
      · rw [dif_neg h2] at h; exact absurd h (by simp)
    · rw [dif_neg h1] at h
      simp only [GoResult.ok.injEq] at h
      subst h
      refine ⟨hacc, fun j _ => rfl, ?_⟩
      intro j hij hjlen
      omega

/-- C4: for every blinded route on which blindedToSphinx returns, hop 0
has node_pub equal to the cleartext introduction point with payload
encrypted_data[0], and each hop 1 ≤ i < number of encrypted-data entries
has node_pub blinded_hops[i] with payload encrypted_data[i]; every such
hop carries payload type TLV. -/
theorem blindedToSphinx_hops (r : BlindedPath) (hops : List OnionHop)
    (h : blindedToSphinx r = .ok hops) :
    hops.length = numMaxHops ∧
    hops.getD 0 emptyOnionHop =
      { nodePub := r.introductionPoint, payloadType := .tlv,
        payload := r.encryptedData.getD 0 [] } ∧
    (∀ i, 1 ≤ i → i < r.encryptedData.length →
      hops.getD i emptyOnionHop =
        { nodePub := r.blindedHops.getD i ⟨0⟩, payloadType := .tlv,
          payload := r.encryptedData.getD i [] }) := by
  by_cases hed : r.encryptedData.length = 0
  · rw [blindedToSphinx, if_pos hed] at h
    exact absurd h (by simp)
  · rw [blindedToSphinx, if_neg hed] at h
    obtain ⟨hlen, hsame, hset⟩ :=
      blindedToSphinxLoop_ok_contents r r.encryptedData.length 1 _ hops
        (by omega) (by simp) h
    refine ⟨hlen, ?_, fun i h1 h2 => hset i h1 h2⟩
    rw [hsame 0 (by omega),
      getD_set_self _ _ _ _ (by simp [numMaxHops])]

/-- A concrete blinded route for the C4 witness. -/
def wRoute : BlindedPath :=
  { introductionPoint := ⟨1⟩, blindingPoint := ⟨2⟩,
    blindedHops := [⟨10⟩, ⟨11⟩], encryptedData := [[1], [2]] }

/-- The sphinx path blindedToSphinx builds for `wRoute`. -/
def wHops : List OnionHop :=
  match blindedToSphinx wRoute with
  | .ok hops => hops
  | _ => []

theorem blindedToSphinx_hops_witness :
    wHops.getD 0 emptyOnionHop =
      { nodePub := wRoute.introductionPoint, payloadType := .tlv,
        payload := wRoute.encryptedData.getD 0 [] } ∧
    wHops.getD 1 emptyOnionHop =
      { nodePub := wRoute.blindedHops.getD 1 ⟨0⟩, payloadType := .tlv,
        payload := wRoute.encryptedData.getD 1 [] } :=
  have h := blindedToSphinx_hops wRoute wHops (by decide)
  ⟨h.2.1, h.2.2 1 (by decide) (by decide)⟩

/-- Decides whether a Go call completed normally. -/
def GoResult.isOk {ε α : Type} : GoResult ε α → Bool
  | .ok _ => true
  | _ => false

/-- C9 counterexample: a blinded route with one encrypted-data entry and
no blinded hops completes with all index accesses in bounds, although it
has fewer blinded-hop entries than encrypted-data entries — so the claimed
precondition is not necessary for in-bounds access. -/
def cexRoute : BlindedPath :=
  { introductionPoint := ⟨1⟩, blindingPoint := ⟨2⟩,
    blindedHops := [], encryptedData := [[]] }

theorem blindedToSphinx_bounds_cex :
    (blindedToSphinx cexRoute).isOk = true ∧
    cexRoute.blindedHops.length < cexRoute.encryptedData.length := by
  decide

/-- C9 (amended): blindedToSphinx never returns an error value for any
input it completes on, and its index accesses are in bounds exactly when
the route has at least one encrypted-data entry, no more encrypted-data
entries than the fixed sphinx path width, and — whenever it has at least
two encrypted-data entries — at least as many blinded-hop entries as
encrypted-data entries. -/
theorem blindedToSphinx_safety (r : BlindedPath) :
    (∀ e, blindedToSphinx r ≠ .err e) ∧
    ((∃ hops, blindedToSphinx r = .ok hops) ↔
      (0 < r.encryptedData.length ∧
        r.encryptedData.length ≤ numMaxHops ∧
        (r.encryptedData.length ≤ 1 ∨
          r.encryptedData.length ≤ r.blindedHops.length))) := by
  by_cases hed : r.encryptedData.length = 0
  · constructor
    · intro e h
      rw [blindedToSphinx, if_pos hed] at h
      exact absurd h (by simp)
    · constructor
      · rintro ⟨hops, h⟩
        rw [blindedToSphinx, if_pos hed] at h
        exact absurd h (by simp)
      · intro h
        omega
  · have h27 : numMaxHops = 27 := rfl
    constructor
    · intro e h
      rw [blindedToSphinx, if_neg hed] at h
      exact blindedToSphinxLoop_ne_err r r.encryptedData.length 1 _ e h
    · rw [blindedToSphinx, if_neg hed,
        blindedToSphinxLoop_ok_iff r r.encryptedData.length 1 _ (by omega)]
      constructor
      · intro hall
        refine ⟨by omega, ?_, ?_⟩
        · rcases Nat.lt_or_ge r.encryptedData.length 2 with hsmall | hbig
          · omega
          · have hj := (hall (r.encryptedData.length - 1) (by omega)
              (by omega)).2
            omega
        · rcases Nat.lt_or_ge r.encryptedData.length 2 with hsmall | hbig
          · left; omega
          · right
            have hj := (hall (r.encryptedData.length - 1) (by omega)
              (by omega)).1
            omega
      · rintro ⟨hpos, hmax, hbh⟩ j hij hjlen
        constructor
        · rcases hbh with hsmall | hge
          · omega
          · omega
        · omega

/-! ## Inbound dispatch -/

theorem dispatchFinalPayloadList_none
    (handlers : Nat → Option OnionMessageHandler) (rp : Option ReplyPath)
    (ed : Bytes) :
    ∀ l : List FinalHopPayload,
      (∀ fhp ∈ l, ∀ h, handlers fhp.tlvType = some h →
        h rp ed fhp.value = none) →
      dispatchFinalPayloadList handlers rp ed l = none := by
  intro l
  induction l with
  | nil => intro _; rfl
  | cons fhp rest ih =>
    intro hall
    simp only [dispatchFinalPayloadList]
    cases hh : handlers fhp.tlvType with
    | none =>
      exact ih fun f hf h hreg => hall f (List.mem_cons_of_mem _ hf) h hreg
    | some hdl =>
      dsimp only
      rw [hall fhp (List.mem_cons_self _ _) hdl hh]
      exact ih fun f hf h hreg => hall f (List.mem_cons_of_mem _ hf) h hreg

theorem dispatchFinalPayloadList_some
    (handlers : Nat → Option OnionMessageHandler) (rp : Option ReplyPath)
    (ed : Bytes) :
    ∀ (l : List FinalHopPayload) (e : HandleErr),
      dispatchFinalPayloadList handlers rp ed l = some e →
      ∃ fhp ∈ l, ∃ h, ∃ code, handlers fhp.tlvType = some h ∧
        h rp ed fhp.value = some code ∧ e = .externalErr code := by
  intro l
  induction l with
  | nil =>
    intro e h
    exact absurd h (by simp [dispatchFinalPayloadList])
  | cons fhp rest ih =>
    intro e h
    simp only [dispatchFinalPayloadList] at h
    cases hh : handlers fhp.tlvType with
    | none =>
      rw [hh] at h
      obtain ⟨f, hf, hdl, code, h1, h2, h3⟩ := ih e h
      exact ⟨f, List.mem_cons_of_mem _ hf, hdl, code, h1, h2, h3⟩
    | some hdl =>
      rw [hh] at h
      dsimp only at h
      cases hcall : hdl rp ed fhp.value with
      | none =>
        rw [hcall] at h
        obtain ⟨f, hf, hdl2, code, h1, h2, h3⟩ := ih e h
        exact ⟨f, List.mem_cons_of_mem _ hf, hdl2, code, h1, h2, h3⟩
      | some code =>
        rw [hcall] at h
        dsimp only at h
        simp only [Option.some.injEq] at h
        exact ⟨fhp, List.mem_cons_self _ _, hdl, code, hh, hcall, h.symm⟩

/-- C3: when the processed action is ExitNode, handleOnionMessage
dispatches each final hop payload to the handler registered for its tlv
type with arguments (reply_path, encrypted_data, value); when every
registered handler succeeds (in particular, when none is registered) the
message is handled without error; a handler's error is the returned error;
and the receive loop processes subsequent messages identically whatever a
message's handling returned. -/
theorem handleOnionMessage_exitNode (blob : Bytes) (kit : OnionMessageKit)
    (blinding : PubKey) (packet : ProcessedPacket)
    (payload : OnionMessagePayload)
    (hproc : kit.processOnion blob = .ok (blinding, packet))
    (hdec : kit.decodePayload packet.payloadBytes = .ok payload)
    (hact : packet.action = .exitNode) :
    handleOnionMessage blob kit =
      dispatchFinalPayloadList kit.handlers payload.replyPath
        payload.encryptedData payload.finalHopPayloads ∧
    ((∀ fhp ∈ payload.finalHopPayloads, ∀ h,
        kit.handlers fhp.tlvType = some h →
        h payload.replyPath payload.encryptedData fhp.value = none) →
      handleOnionMessage blob kit = none) ∧
    (∀ e, handleOnionMessage blob kit = some e →
      ∃ fhp ∈ payload.finalHopPayloads, ∃ h, ∃ code,
        kit.handlers fhp.tlvType = some h ∧
        h payload.replyPath payload.encryptedData fhp.value = some code ∧
        e = .externalErr code) ∧
    (∀ msg rest, msg.msgType = onionMessageType →
      receiveOnionMessages kit (.msgArrived msg :: rest) =
        (handleOnionMessage msg.data kit ::
            (receiveOnionMessages kit rest).1,
          (receiveOnionMessages kit rest).2)) := by
  have hmain : handleOnionMessage blob kit =
      dispatchFinalPayloadList kit.handlers payload.replyPath
        payload.encryptedData payload.finalHopPayloads := by
    simp only [handleOnionMessage, hproc, hdec, hact]
  refine ⟨hmain, ?_, ?_, ?_⟩
  · intro hall
    rw [hmain]
    exact dispatchFinalPayloadList_none _ _ _ _ hall
  · intro e he
    rw [hmain] at he
    exact dispatchFinalPayloadList_some _ _ _ _ e he
  · intro msg rest hty
    simp [receiveOnionMessages, hty]

/-- A handler that always succeeds, for witnesses. -/
def wHandler : OnionMessageHandler := fun _ _ _ => none

/-- A decoded payload with one final hop payload of type 101. -/
def wPayload : OnionMessagePayload :=
  { replyPath := none, encryptedData := [9, 8, 7],
    finalHopPayloads := [{ tlvType := 101, value := [1, 2, 3] }] }

/-- A processed packet indicating this node is the exit node. -/
def wPacketExit : ProcessedPacket :=
  { action := .exitNode, nextPacket := none, payloadBytes := [7] }

/-- A kit whose processing yields `wPacketExit` and `wPayload`, with a
handler registered for type 101. -/
def wKitExit : OnionMessageKit :=
  { processOnion := fun _ => .ok (⟨9⟩, wPacketExit)
    decodePayload := fun _ => .ok wPayload
    decryptDataBlob := fun _ _ => .error 0
    forwardMessage := fun _ _ _ => some 0
    handlers := fun t => if t = 101 then some wHandler else none }

theorem handleOnionMessage_exitNode_witness :
    handleOnionMessage [] wKitExit =
      dispatchFinalPayloadList wKitExit.handlers wPayload.replyPath
        wPayload.encryptedData wPayload.finalHopPayloads :=
  (handleOnionMessage_exitNode [] wKitExit ⟨9⟩ wPacketExit wPayload rfl rfl
    rfl).1

/-- A decoded payload carrying a final hop payload, for the C2
counterexample. -/
def cexPayloadFinal : OnionMessagePayload :=
  { replyPath := none, encryptedData := [3, 2, 1],
    finalHopPayloads := [{ tlvType := 101, value := [1, 2, 3] }] }

/-- A processed packet with more hops but no next onion packet. -/
def cexPacketMoreHops : ProcessedPacket :=
  { action := .moreHops, nextPacket := none, payloadBytes := [] }

/-- A kit whose processing yields `cexPacketMoreHops` and
`cexPayloadFinal`. -/
def cexKitMoreHops : OnionMessageKit :=
  { processOnion := fun _ => .ok (⟨9⟩, cexPacketMoreHops)
    decodePayload := fun _ => .ok cexPayloadFinal
    decryptDataBlob := fun _ _ => .error 0
    forwardMessage := fun _ _ _ => some 0
    handlers := fun _ => none }

/-- C2 counterexample: an inbound message whose processing yields MoreHops
and no next onion packet, but whose decoded payload carries a final hop
payload, is answered with ErrFinalPayload — not ErrNoForwardingOnion —
matching the repository's TestHandleOnionMessage expectations. -/
theorem handleOnionMessage_moreHops_cex :
    cexKitMoreHops.processOnion [] = .ok (⟨9⟩, cexPacketMoreHops) ∧
    cexPacketMoreHops.action = .moreHops ∧
    cexPacketMoreHops.nextPacket = none ∧
    cexKitMoreHops.decodePayload cexPacketMoreHops.payloadBytes =
      .ok cexPayloadFinal ∧
    cexPayloadFinal.finalHopPayloads ≠ [] ∧
    handleOnionMessage [] cexKitMoreHops = some .errFinalPayload ∧
    handleOnionMessage [] cexKitMoreHops ≠ some .errNoForwardingOnion :=
  ⟨rfl, rfl, rfl, rfl, by decide, rfl, by decide⟩

/-- C2 (amended): for every inbound message whose processing yields action
MoreHops and no next onion packet, handleOnionMessage fails with
ErrNoForwardingOnion for every decoded payload that carries no
final_hop_payloads; a decoded payload that carries final_hop_payloads
fails with ErrFinalPayload instead. -/
theorem handleOnionMessage_moreHops (blob : Bytes) (kit : OnionMessageKit)
    (blinding : PubKey) (packet : ProcessedPacket)
    (payload : OnionMessagePayload)
    (hproc : kit.processOnion blob = .ok (blinding, packet))
    (hdec : kit.decodePayload packet.payloadBytes = .ok payload)
    (hact : packet.action = .moreHops) :
    (payload.finalHopPayloads = [] → packet.nextPacket = none →
      handleOnionMessage blob kit = some .errNoForwardingOnion) ∧
    (payload.finalHopPayloads ≠ [] →
      handleOnionMessage blob kit = some .errFinalPayload) := by
  constructor
  · intro hfin hnext
    simp [handleOnionMessage, hproc, hdec, hact, hfin, hnext]
  · intro hfin
    simp only [handleOnionMessage, hproc, hdec, hact]
    rw [if_neg hfin]

/-- A decoded payload with no final hop payloads. -/
def wPayloadNoFinal : OnionMessagePayload :=
  { replyPath := none, encryptedData := [9, 8, 7], finalHopPayloads := [] }

/-- A processed packet with more hops and no next onion packet. -/
def wPacketMoreHops : ProcessedPacket :=
  { action := .moreHops, nextPacket := none, payloadBytes := [] }

/-- A kit whose processing yields `wPacketMoreHops` and
`wPayloadNoFinal`. -/
def wKitMoreHops : OnionMessageKit :=
  { processOnion := fun _ => .ok (⟨9⟩, wPacketMoreHops)
    decodePayload := fun _ => .ok wPayloadNoFinal
    decryptDataBlob := fun _ _ => .error 0
    forwardMessage := fun _ _ _ => some 0
    handlers := fun _ => none }

theorem handleOnionMessage_moreHops_witness :
    handleOnionMessage [] wKitMoreHops = some .errNoForwardingOnion :=
  (handleOnionMessage_moreHops [] wKitMoreHops ⟨9⟩ wPacketMoreHops
    wPayloadNoFinal rfl rfl rfl).1 rfl rfl

/-! ## Handler registry and request validation -/

theorem lookup_eq_none_of_not_mem {H : Type} :
    ∀ (l : List (Nat × H)) (t : Nat),
      t ∉ l.map Prod.fst → l.lookup t = none := by
  intro l
  induction l with
  | nil => intro t _; rfl
  | cons kv rest ih =>
    intro t hmem
    have hne : kv.1 ≠ t := by
      intro heq
      exact hmem (by simp [← heq])
    obtain ⟨k, v⟩ := kv
    rw [List.lookup, beq_eq_false_iff_ne.mpr (Ne.symm hne)]
    exact ih t fun hm => hmem (List.mem_cons_of_mem _ hm)

theorem lookup_eraseP_of_nodup {H : Type} :
    ∀ (l : List (Nat × H)) (t : Nat),
      (l.map Prod.fst).Nodup →
      (l.eraseP (fun p => p.1 == t)).lookup t = none := by
  intro l
  induction l with
  | nil => intro t _; rfl
  | cons kv rest ih =>
    intro t hnd
    obtain ⟨k, v⟩ := kv
    by_cases hk : k = t
    · rw [List.eraseP_cons_of_pos (by simp [hk])]
      subst hk
      apply lookup_eq_none_of_not_mem
      exact (List.nodup_cons.mp (by simpa using hnd)).1
    · rw [List.eraseP_cons_of_neg (by simp [hk]), List.lookup,
        beq_eq_false_iff_ne.mpr (Ne.symm hk)]
      exact ih t (List.nodup_cons.mp (by simpa using hnd)).2

/-- C5: RegisterHandler fails with ErrNotStarted before Start and
ErrShuttingDown after Stop; while started it fails with the not-final-
payload error for an out-of-range tlv type, fails with
ErrHandlerRegistered when the type is already bound, and otherwise inserts
the handler; DeregisterHandler removes the entry and fails with
ErrHandlerNotFound when it is absent, under the same state gating. -/
theorem registerDeregister_spec {H : Type} (m : Messenger H) (t : Nat)
    (h : H) :
    (m.state = .created →
      m.RegisterHandler t h = .error .errNotStarted ∧
      m.DeregisterHandler t = .error .errNotStarted) ∧
    (m.state = .stopped →
      m.RegisterHandler t h = .error .errShuttingDown ∧
      m.DeregisterHandler t = .error .errShuttingDown) ∧
    (m.state = .started → ¬ finalPayloadStart ≤ t →
      m.RegisterHandler t h = .error .errNotFinalPayload) ∧
    (m.state = .started → finalPayloadStart ≤ t → ∀ h0,
      m.handlers.lookup t = some h0 →
      m.RegisterHandler t h = .error .errHandlerRegistered) ∧
    (m.state = .started → finalPayloadStart ≤ t →
      m.handlers.lookup t = none →
      ∃ m2, m.RegisterHandler t h = .ok m2 ∧ m2.state = .started ∧
        m2.handlers.lookup t = some h) ∧
    (m.state = .started → m.handlers.lookup t = none →
      m.DeregisterHandler t = .error .errHandlerNotFound) ∧
    (m.state = .started → (m.handlers.map Prod.fst).Nodup → ∀ h0,
      m.handlers.lookup t = some h0 →
      ∃ m2, m.DeregisterHandler t = .ok m2 ∧ m2.state = .started ∧
        m2.handlers.lookup t = none) := by
  refine ⟨?_, ?_, ?_, ?_, ?_, ?_, ?_⟩
  · intro hs
    constructor
    · simp [Messenger.RegisterHandler, hs]
    · simp [Messenger.DeregisterHandler, hs]
  · intro hs
    constructor
    · simp [Messenger.RegisterHandler, hs]
    · simp [Messenger.DeregisterHandler, hs]
  · intro hs hlt
    have hv : validateFinalPayload t = false := by
      simp [validateFinalPayload, hlt]
    simp [Messenger.RegisterHandler, hs, hv]
  · intro hs hge h0 hl
    have hv : validateFinalPayload t = true := by
      simp [validateFinalPayload, hge]
    simp [Messenger.RegisterHandler, hs, hv, hl]
  · intro hs hge hl
    have hv : validateFinalPayload t = true := by
      simp [validateFinalPayload, hge]
    refine ⟨{ state := .started, handlers := (t, h) :: m.handlers },
      ?_, rfl, ?_⟩
    · simp [Messenger.RegisterHandler, hs, hv, hl]
    · rw [List.lookup, beq_self_eq_true]
  · intro hs hl
    simp [Messenger.DeregisterHandler, hs, hl]
  · intro hs hnd h0 hl
    refine ⟨Messenger.mk .started
        (m.handlers.eraseP (fun p => p.1 == t)), ?_, rfl, ?_⟩
    · simp [Messenger.DeregisterHandler, hs, hl]
    · exact lookup_eraseP_of_nodup m.handlers t hnd

theorem registerDeregister_spec_witness :
    ∃ m2, Messenger.RegisterHandler
        (⟨.started, []⟩ : Messenger Nat) 100 0 = .ok m2 ∧
      m2.state = .started ∧ m2.handlers.lookup 100 = some 0 :=
  (registerDeregister_spec (⟨.started, []⟩ : Messenger Nat) 100
    0).2.2.2.2.1 rfl (by decide) rfl

theorem checkFinalPayloadTypes_eq_none :
    ∀ l : List FinalHopPayload,
      (checkFinalPayloadTypes l = none ↔
        ∀ fhp ∈ l, finalPayloadStart ≤ fhp.tlvType) := by
  intro l
  induction l with
  | nil => simp [checkFinalPayloadTypes]
  | cons fhp rest ih =>
    simp only [checkFinalPayloadTypes]
    by_cases hv : validateFinalPayload fhp.tlvType = true
    · have hle : finalPayloadStart ≤ fhp.tlvType := by
        simpa [validateFinalPayload] using hv
      rw [if_pos hv, ih]
      constructor
      · intro hall f hf
        rcases List.mem_cons.mp hf with heq | hmem
        · rw [heq]; exact hle
        · exact hall f hmem
      · intro hall f hf
        exact hall f (List.mem_cons_of_mem _ hf)
    · have hle : ¬ finalPayloadStart ≤ fhp.tlvType := by
        simpa [validateFinalPayload] using hv
      rw [if_neg hv]
      constructor
      · intro hsome
        exact absurd hsome (by simp)
      · intro hall
        exact absurd (hall fhp (List.mem_cons_self _ _)) hle

/-- C6: validation of a SendMessageRequest succeeds iff exactly one of
{peer, blinded destination} is set, a present blinded destination has at
least one hop, and every final payload tlv type lies in the final-payload
range; it fails with ErrNoDest when neither destination is set, with
ErrBothDest when both are, and with ErrNoBlindedHops when the blinded
destination has no hops. -/
theorem validateSendMessageRequest (r : SendMessageRequest) :
    (r.Validate = none ↔
      (((∃ p, r.peer = some p) ∧ r.blindedDestination = none) ∨
        (r.peer = none ∧
          ∃ d, r.blindedDestination = some d ∧ d.hops ≠ [])) ∧
      ∀ fhp ∈ r.finalPayloads, finalPayloadStart ≤ fhp.tlvType) ∧
    (r.peer = none → r.blindedDestination = none →
      r.Validate = some .errNoDest) ∧
    (∀ p d, r.peer = some p → r.blindedDestination = some d →
      r.Validate = some .errBothDest) ∧
    (∀ d, r.peer = none → r.blindedDestination = some d → d.hops = [] →
      r.Validate = some .errNoBlindedHops) := by
  cases hp : r.peer with
  | none =>
    cases hb : r.blindedDestination with
    | none =>
      simp [SendMessageRequest.Validate, hp, hb]
    | some d =>
      by_cases hh : d.hops = []
      · simp [SendMessageRequest.Validate, hp, hb, hh]
      · simp [SendMessageRequest.Validate, hp, hb, hh,
          checkFinalPayloadTypes_eq_none]
  | some p =>
    cases hb : r.blindedDestination with
    | none =>
      simp [SendMessageRequest.Validate, hp, hb,
        checkFinalPayloadTypes_eq_none]
    | some d =>
      simp [SendMessageRequest.Validate, hp, hb]

theorem validateSendMessageRequest_witness :
    SendMessageRequest.Validate
      { peer := none, blindedDestination := none, replyPath := none,
        finalPayloads := [], directConnect := false } =
      some .errNoDest :=
  (validateSendMessageRequest
    { peer := none, blindedDestination := none, replyPath := none,
      finalPayloads := [], directConnect := false }).2.1 rfl rfl

/-! ## Receive loop and subscription lifecycle -/

/-- C7: on any run of the started messenger's receive loop in which, after
some prefix of message deliveries, an error arrives on the subscription
error stream or one of its streams closes, request_shutdown is called
exactly once — with the propagated subscription error in the first case
and with ErrLNDShutdown on stream closure — and the loop exits without
consuming further events. -/
theorem receiveOnionMessages_shutdown (kit : OnionMessageKit)
    (pre rest : List LoopEvent)
    (hpre : ∀ ev ∈ pre, ∃ m, ev = LoopEvent.msgArrived m) :
    (∀ code,
      (receiveOnionMessages kit
          (pre ++ LoopEvent.errArrived code :: rest)).2 =
        ([ShutdownReason.subscriptionErr code],
          LoopExit.exitAfterShutdownRequest)) ∧
    ((receiveOnionMessages kit
        (pre ++ LoopEvent.msgStreamClosed :: rest)).2 =
      ([ShutdownReason.errLNDShutdown],
        LoopExit.exitAfterShutdownRequest)) ∧
    ((receiveOnionMessages kit
        (pre ++ LoopEvent.errStreamClosed :: rest)).2 =
      ([ShutdownReason.errLNDShutdown],
        LoopExit.exitAfterShutdownRequest)) := by
  induction pre with
  | nil =>
    refine ⟨fun code => ?_, ?_, ?_⟩ <;> simp [receiveOnionMessages]
  | cons ev pre2 ih =>
    obtain ⟨m, hm⟩ := hpre ev (List.mem_cons_self _ _)
    subst hm
    have ih2 := ih fun e he => hpre e (List.mem_cons_of_mem _ he)
    by_cases hty : m.msgType = onionMessageType
    · refine ⟨fun code => ?_, ?_, ?_⟩
      · simpa [receiveOnionMessages, hty] using ih2.1 code
      · simpa [receiveOnionMessages, hty] using ih2.2.1
      · simpa [receiveOnionMessages, hty] using ih2.2.2
    · refine ⟨fun code => ?_, ?_, ?_⟩
      · simpa [receiveOnionMessages, hty] using ih2.1 code
      · simpa [receiveOnionMessages, hty] using ih2.2.1
      · simpa [receiveOnionMessages, hty] using ih2.2.2

/-- A trivial kit for exercising the receive loop. -/
def wKitLoop : OnionMessageKit :=
  { processOnion := fun _ => .error 0
    decodePayload := fun _ => .error 0
    decryptDataBlob := fun _ _ => .error 0
    forwardMessage := fun _ _ _ => none
    handlers := fun _ => none }

theorem receiveOnionMessages_shutdown_witness :
    (receiveOnionMessages wKitLoop
        ([LoopEvent.msgArrived ⟨onionMessageType, []⟩] ++
          LoopEvent.errArrived 7 :: [LoopEvent.quitSignal])).2 =
      ([ShutdownReason.subscriptionErr 7],
        LoopExit.exitAfterShutdownRequest) :=
  (receiveOnionMessages_shutdown wKitLoop
    [LoopEvent.msgArrived ⟨onionMessageType, []⟩] [LoopEvent.quitSignal]
    (by simp)).1 7

theorem registerHandler_ok_inv {H : Type} (m m1 : Messenger H) (t : Nat)
    (h : H) (hreg : m.RegisterHandler t h = .ok m1) :
    m.state = .started ∧ validateFinalPayload t = true ∧
    m.handlers.lookup t = none ∧
    m1 = { state := .started, handlers := (t, h) :: m.handlers } := by
  cases hs : m.state with
  | created => simp [Messenger.RegisterHandler, hs] at hreg
  | stopped => simp [Messenger.RegisterHandler, hs] at hreg
  | started =>
    simp only [Messenger.RegisterHandler, hs] at hreg
    by_cases hv : validateFinalPayload t = true
    · rw [if_pos hv] at hreg
      cases hl : m.handlers.lookup t with
      | some h0 =>
        rw [hl] at hreg
        exact absurd hreg (by simp)
      | none =>
        rw [hl] at hreg
        dsimp only at hreg
        simp only [Except.ok.injEq] at hreg
        refine ⟨rfl, hv, rfl, ?_⟩
        rw [← hreg]
    · rw [if_neg hv] at hreg
      exact absurd hreg (by simp)

/-- C10: whenever handleSubscribeOnionPayload successfully registers a
handler for the tlv type and later returns — on client cancellation,
server quit, or stream-send failure — it has deregistered that handler:
the resulting messenger's registry no longer maps the type and a later
registration for the same type succeeds. -/
theorem handleSubscribeOnionPayload_deregisters {H : Type}
    (m m1 : Messenger H) (t : Nat) (h : H)
    (send : OnionPayloadResponse → Option Nat) (events : List SubsEvent)
    (hreg : m.RegisterHandler t h = .ok m1) :
    ∀ mf ex,
      handleSubscribeOnionPayload m t h send events = some (mf, ex) →
      mf.handlers.lookup t = none ∧
      ∀ h2, ∃ m2, mf.RegisterHandler t h2 = .ok m2 := by
  intro mf ex hrun
  obtain ⟨hs, hv, hl, hm1⟩ := registerHandler_ok_inv m m1 t h hreg
  simp only [handleSubscribeOnionPayload, hreg] at hrun
  cases hloop : subscribeLoop send events with
  | none =>
    rw [hloop] at hrun
    exact absurd hrun (by simp)
  | some exitRes =>
    rw [hloop] at hrun
    dsimp only at hrun
    have hdereg : m1.DeregisterHandler t =
        .ok { state := .started, handlers := m.handlers } := by
      rw [hm1]
      simp only [Messenger.DeregisterHandler]
      rw [List.lookup, beq_self_eq_true]
      dsimp only
      rw [List.eraseP_cons_of_pos (by simp)]
    rw [hdereg] at hrun
    dsimp only at hrun
    simp only [Option.some.injEq, Prod.mk.injEq] at hrun
    obtain ⟨hmf, _⟩ := hrun
    rw [← hmf]
    refine ⟨hl, fun h2 => ?_⟩
    exact ⟨{ state := .started, handlers := (t, h2) :: m.handlers },
      by simp [Messenger.RegisterHandler, hv, hl]⟩

/-- A started messenger with an empty registry, for the C10 witness. -/
def wSubMessenger : Messenger Nat := { state := .started, handlers := [] }

theorem handleSubscribeOnionPayload_deregisters_witness :
    (Messenger.mk MessengerState.started
        ([] : List (Nat × Nat))).handlers.lookup 100 = none ∧
    ∀ h2, ∃ m2, (Messenger.mk MessengerState.started
        ([] : List (Nat × Nat))).RegisterHandler 100 h2 = .ok m2 :=
  handleSubscribeOnionPayload_deregisters wSubMessenger
    ⟨.started, [(100, 0)]⟩ 100 0 (fun _ => none) [SubsEvent.ctxDone] rfl
    (Messenger.mk .started []) SubsExit.clientCancel rfl

end Boltnd
